import Mathlib

set_option autoImplicit false

/-!
Verification development for the effect-gql GraphQL execution engine.

The definitions below are a shallow embedding of the TypeScript sources:

* `packages/persisted-queries/src/memory-store.ts` — the in-memory LRU
  persisted-query store (`makeMemoryStore`, `makeSafelistStore`);
* `packages/persisted-queries/src/utils.ts` — `parsePersistedQueryExtension`;
* `packages/persisted-queries/src/errors.ts` — the persisted-query error
  classes and their `toGraphQLError` serializations;
* `packages/persisted-queries/src/persisted-queries-router.ts` —
  `resolvePersistedQuery` and the request handler `createHandler`;
* `packages/core/src/extensions.ts` — the lifecycle hook runners
  (`runParseHooks`, `runValidateHooks`, `runExecuteStartHooks`,
  `runExecuteEndHooks`);
* `packages/core/src/server/sse-types.ts` — SSE event formatting
  (`formatNextEvent`, `formatErrorEvent`, `formatCompleteEvent`,
  `formatSSEMessage`);
* `packages/core/src/server/schema-builder-extensions.ts` —
  `makeSSESubscriptionStream`.

JavaScript `Map`s are modelled as association lists in insertion order,
mutable module state (the access counter) is threaded explicitly, and
effectful code is modelled by explicit state passing / `Except`.
-/

namespace EffectGql

/-! ## JSON values

Runtime JavaScript values that flow through request bodies, extensions
objects and SSE payloads.  Numbers are modelled as integers (the only
numeric field the engine inspects is the persisted-query protocol
`version`, compared against the integer 1). -/

inductive Json where
  | null
  | bool (b : Bool)
  | num (n : Int)
  | str (s : String)
  | arr (items : List Json)
  | obj (fields : List (String × Json))

/-- First-match lookup in a JavaScript object's field list. -/
def jsGetField : List (String × Json) → String → Option Json
  | [], _ => none
  | (k, v) :: rest, key => if k = key then some v else jsGetField rest key

/-! ## The in-memory LRU store (`memory-store.ts`)

`makeMemoryStore` closes over a fresh `Map` per store instance, but the
access counter is declared at module level (`let accessCounter = 0`), so
it is shared by every store instance in the process.  The embedding
therefore threads the counter explicitly through every operation, next
to the per-store cache. -/

/-- Embedding of `CacheEntry` from memory-store.ts: stored query text plus the
last-access sequence stamp (`accessOrder`). -/
structure CacheEntry where
  query : String
  accessOrder : Nat
deriving DecidableEq

/-- Embedding of `cache.get(hash)` on the JS `Map`, modelled on the insertion-order
association list. -/
def mapGet : List (String × CacheEntry) → String → Option CacheEntry
  | [], _ => none
  | (k, e) :: rest, hash => if k = hash then some e else mapGet rest hash

/-- Embedding of `cache.set(hash, entry)`: overwrite in place if the key is present
(keeping its position, as a JS `Map` does), otherwise append. -/
def mapSet : List (String × CacheEntry) → String → CacheEntry → List (String × CacheEntry)
  | [], hash, e => [(hash, e)]
  | (k, v) :: rest, hash, e =>
      if k = hash then (hash, e) :: rest else (k, v) :: mapSet rest hash e

/-- Embedding of `cache.delete(key)`: remove the entry with the given key. -/
def mapDelete : List (String × CacheEntry) → String → List (String × CacheEntry)
  | [], _ => []
  | (k, v) :: rest, key => if k = key then rest else (k, v) :: mapDelete rest key

/-- The scan loop of `evictLRU`: walk the map accumulating the key with
the lowest `accessOrder` seen so far (`oldestOrder` starts at
`Infinity`, so the first entry always replaces an empty accumulator;
later entries replace it only on a strictly smaller order). -/
def findOldestEntry : List (String × CacheEntry) → Option (String × Nat) → Option (String × Nat)
  | [], acc => acc
  | (k, e) :: rest, acc =>
      match acc with
      | none => findOldestEntry rest (some (k, e.accessOrder))
      | some (k0, o0) =>
          if e.accessOrder < o0 then findOldestEntry rest (some (k, e.accessOrder))
          else findOldestEntry rest (some (k0, o0))

/-- Embedding of `evictLRU` from memory-store.ts.  Note the final guard is the JS
truthiness test `if (oldestKey)`, which is false both for `undefined`
and for the empty string, so an entry keyed by `""` is never deleted. -/
def evictLRU (maxSize : Nat) (cache : List (String × CacheEntry)) : List (String × CacheEntry) :=
  if cache.length ≤ maxSize then cache
  else
    match findOldestEntry cache none with
    | none => cache
    | some (oldestKey, _) =>
        if oldestKey = "" then cache else mapDelete cache oldestKey

/-- Embedding of `store.get(hash)`: on a hit, stamp the entry with the next access
order (`entry.accessOrder = getNextAccessOrder()`) and return its query;
on a miss leave the state alone.  Returns
(result, new module counter, new cache). -/
def storeGet (hash : String) (counter : Nat) (cache : List (String × CacheEntry)) :
    Option String × Nat × List (String × CacheEntry) :=
  match mapGet cache hash with
  | none => (none, counter, cache)
  | some e =>
      let counter' := counter + 1
      (some e.query, counter', mapSet cache hash ⟨e.query, counter'⟩)

/-- Embedding of `store.set(hash, query)`: insert/overwrite with a fresh stamp, then
run `evictLRU`.  Returns (new module counter, new cache). -/
def storeSet (maxSize : Nat) (hash query : String) (counter : Nat)
    (cache : List (String × CacheEntry)) : Nat × List (String × CacheEntry) :=
  let counter' := counter + 1
  (counter', evictLRU maxSize (mapSet cache hash ⟨query, counter'⟩))

/-- Embedding of `store.has(hash)`: existence check, no state change. -/
def storeHas (hash : String) (cache : List (String × CacheEntry)) : Bool :=
  (mapGet cache hash).isSome

/-! ## The safelist store (`makeSafelistStore`) -/

/-- Embedding of `queries[hash] !== undefined ? Option.some(queries[hash]) : Option.none()`. -/
def safelistGet (queries : List (String × String)) (hash : String) : Option String :=
  match queries with
  | [] => none
  | (k, q) :: rest => if k = hash then some q else safelistGet rest hash

/-- Embedding of `set` is a no-op for safelist mode. -/
def safelistSet (queries : List (String × String)) (_hash _query : String) :
    List (String × String) :=
  queries

/-- Embedding of `has(hash)` for the safelist store. -/
def safelistHas (queries : List (String × String)) (hash : String) : Bool :=
  (safelistGet queries hash).isSome

/-! ## Decimal rendering

Own decimal printer for the template literals / `JSON.stringify` output
modelled below, with an easy non-emptiness proof. -/

/-- Decimal representation of a natural number. -/
def natRepr (n : Nat) : String :=
  if h : n < 10 then String.singleton (Char.ofNat (48 + n))
  else natRepr (n / 10) ++ String.singleton (Char.ofNat (48 + n % 10))
decreasing_by exact Nat.div_lt_self (by omega) (by omega)

/-- Decimal representation of an integer. -/
def intRepr : Int → String
  | .ofNat n => natRepr n
  | .negSucc n => ("-") ++ natRepr (n + 1)

/-! ## Persisted-query protocol (`utils.ts`, `errors.ts`,
`persisted-queries-router.ts`) -/

/-- The two operating modes from config.ts (`"apq"` is the automatic
mode, `"safelist"` the pre-registered mode). -/
inductive PQMode where
  | apq
  | safelist
deriving DecidableEq

/-- Embedding of `PersistedQueryExtension` from utils.ts. -/
structure PersistedQueryExtension where
  version : Int
  sha256Hash : String
deriving DecidableEq

/-- Embedding of `GraphQLRequestBody` from utils.ts.  `query` is `Option String`
(`query?: string`); `extensions` is the raw JSON value of the
`extensions` field. -/
structure GraphQLRequestBody where
  query : Option String := none
  variablesField : Option Json := none
  operationName : Option String := none
  extensions : Option Json := none

/-- Embedding of `parsePersistedQueryExtension` from utils.ts.  Returns `none` for
every malformed shape: `extensions` not a non-null object carrying a
`persistedQuery` key (a JS array passes the `typeof` test but fails the
`"persistedQuery" in extensions` test), `persistedQuery` itself not a
non-null object carrying both `version` and `sha256Hash` keys, or those
two fields not a number resp. a string. -/
def parsePersistedQueryExtension : Option Json → Option PersistedQueryExtension
  | none => none
  | some ext =>
    match ext with
    | .obj fields =>
      match jsGetField fields ("persistedQuery") with
      | none => none
      | some pq =>
        match pq with
        | .obj pqFields =>
          match jsGetField pqFields ("version"), jsGetField pqFields ("sha256Hash") with
          | some (.num v), some (.str s) => some ⟨v, s⟩
          | _, _ => none
        | _ => none
    | _ => none

/-- The JS truthiness test `!body.query` used by `resolvePersistedQuery`
and `createHandler`: false for a missing query and for the empty
string. -/
def queryProvided (body : GraphQLRequestBody) : Bool :=
  match body.query with
  | some q => q ≠ ""
  | none => false

/-- The four error classes from errors.ts, with the payload fields each
class carries. -/
inductive PersistedQueryError where
  | notFound (hash : String)
  | versionNotSupported (version : Int)
  | hashMismatch (providedHash computedHash : String)
  | notAllowed (hash : String)
deriving DecidableEq

/-- A GraphQL-shaped error object: `message` plus an `extensions`
object. -/
structure GraphQLErrorObj where
  message : String
  extensions : List (String × Json)

/-- The `toGraphQLError()` serializations from errors.ts.  Note that the
hash-mismatch error serializes only the `code` — the two hashes are
fields of the error value but are not exposed in the response. -/
def pqErrorToGraphQLError : PersistedQueryError → GraphQLErrorObj
  | .notFound _ =>
      { message := ("PersistedQueryNotFound"),
        extensions := [(("code"), Json.str ("PERSISTED_QUERY_NOT_FOUND"))] }
  | .versionNotSupported v =>
      { message := ("Unsupported persisted query version: ") ++ intRepr v,
        extensions := [(("code"), Json.str ("PERSISTED_QUERY_VERSION_NOT_SUPPORTED")),
                       (("version"), Json.num v)] }
  | .hashMismatch _ _ =>
      { message := ("Query hash does not match provided hash"),
        extensions := [(("code"), Json.str ("PERSISTED_QUERY_HASH_MISMATCH"))] }
  | .notAllowed _ =>
      { message := ("Query not in safelist"),
        extensions := [(("code"), Json.str ("PERSISTED_QUERY_NOT_ALLOWED"))] }

/-- Embedding of `resolvePersistedQuery` from persisted-queries-router.ts.  The store
is abstracted by its lookup view `storeLookup` (what `store.get` returns
for each hash); `computeHash` abstracts the hash function configured via
`hashAlgorithm`.  On success, returns the resolved body together with
the `(hash, query)` pair written by `store.set`, when a registration
happened. -/
def resolvePersistedQuery (mode : PQMode) (validateHashOption : Bool)
    (computeHash : String → String) (storeLookup : String → Option String)
    (body : GraphQLRequestBody) :
    Except PersistedQueryError (GraphQLRequestBody × Option (String × String)) :=
  match parsePersistedQueryExtension body.extensions with
  | none => .ok (body, none)
  | some pq =>
    if pq.version ≠ 1 then .error (.versionNotSupported pq.version)
    else
      match storeLookup pq.sha256Hash with
      | some stored => .ok ({ body with query := some stored }, none)
      | none =>
        match body.query with
        | none => .error (.notFound pq.sha256Hash)
        | some q =>
          if q = "" then .error (.notFound pq.sha256Hash)
          else if mode = .safelist then .error (.notAllowed pq.sha256Hash)
          else if validateHashOption ∧ computeHash q ≠ pq.sha256Hash then
            .error (.hashMismatch pq.sha256Hash (computeHash q))
          else .ok (body, some (pq.sha256Hash, q))

/-! ## Lifecycle hooks (`extensions.ts`)

The extension bag (`ExtensionsService`) is a per-request record of
string-keyed values; a lifecycle hook observes and updates the bag and
may fail.  In the source each of `runParseHooks`, `runValidateHooks`,
`runExecuteStartHooks` and `runExecuteEndHooks` filters the extensions
that define the hook, invokes them in order, and wraps every call in
`Effect.catchAllCause(cause => Effect.logWarning(...))`, so that a hook
failure of any kind is converted into one warning log entry and the
run continues. -/

/-- The per-request extension bag. -/
abbrev ExtensionBag := List (String × Json)

/-- One lifecycle hook: from the current bag to the updated bag
(the updates it performed before the failure point persist, like
`Ref.update` calls inside a failing `Effect`), plus an optional
failure. -/
abbrev HookFn := ExtensionBag → ExtensionBag × Option String

/-- Embedding of `GraphQLExtension` from extensions.ts: four optional lifecycle
hooks. -/
structure GraphQLExtensionM where
  onParse : Option HookFn := none
  onValidate : Option HookFn := none
  onExecuteStart : Option HookFn := none
  onExecuteEnd : Option HookFn := none

/-- Embedding of `Effect.forEach` over the hooks of one phase, with
`catchAllCause`/`logWarning` isolation: returns the final bag and the
number of warnings logged (one per failed hook). -/
def runHooksPhase : List HookFn → ExtensionBag → ExtensionBag × Nat
  | [], bag => (bag, 0)
  | h :: rest, bag =>
      let step := h bag
      let done := runHooksPhase rest step.1
      (done.1, (if step.2.isSome then 1 else 0) + done.2)

/-- Embedding of `runParseHooks`: filter extensions with `onParse` defined, run them
in order under the isolating wrapper. -/
def runParseHooksM (exts : List GraphQLExtensionM) (bag : ExtensionBag) : ExtensionBag × Nat :=
  runHooksPhase (exts.filterMap (·.onParse)) bag

/-- Embedding of `runValidateHooks`. -/
def runValidateHooksM (exts : List GraphQLExtensionM) (bag : ExtensionBag) : ExtensionBag × Nat :=
  runHooksPhase (exts.filterMap (·.onValidate)) bag

/-- Embedding of `runExecuteStartHooks`. -/
def runExecuteStartHooksM (exts : List GraphQLExtensionM) (bag : ExtensionBag) : ExtensionBag × Nat :=
  runHooksPhase (exts.filterMap (·.onExecuteStart)) bag

/-- Embedding of `runExecuteEndHooks`. -/
def runExecuteEndHooksM (exts : List GraphQLExtensionM) (bag : ExtensionBag) : ExtensionBag × Nat :=
  runHooksPhase (exts.filterMap (·.onExecuteEnd)) bag

/-! ## Complexity governor

`complexity.ts` itself is not among the sources (only its callers are),
so the limit check of `validateComplexity` is modelled from the spec. -/

/-- Embedding of `ComplexityResult`: the four metrics computed per request. -/
structure ComplexityResult where
  complexity : Nat
  depth : Nat
  fieldCount : Nat
  aliasCount : Nat
deriving DecidableEq

/-- Embedding of `ComplexityConfig`: the optional ceilings. -/
structure ComplexityConfig where
  maxDepth : Option Nat := none
  maxComplexity : Option Nat := none
  maxAliases : Option Nat := none
  maxFields : Option Nat := none
deriving DecidableEq

/-- The failure channel of `validateComplexity`: either a limit
violation carrying `limitType`, `limit` and `actual`, or an analysis
failure. -/
inductive ComplexityErrorM where
  | limitExceeded (limitType : String) (limit actual : Nat)
  | analysisError (message : String)
deriving DecidableEq

/-- Modelled from the spec: one limit comparison — an unconfigured limit
is not checked, a configured one is violated when the actual metric
exceeds it. -/
def limitViolation (name : String) (limit : Option Nat) (actual : Nat) :
    Option (String × Nat × Nat) :=
  match limit with
  | some l => if l < actual then some (name, l, actual) else none
  | none => none

/-- Modelled from the spec: each configured limit of
`{maxDepth, maxComplexity, maxAliases, maxFields}` is compared
independently and the first violated one is reported with
`{limitType, limit, actual}` (complexity.ts is not under the sources;
its callers and the spec fix this behaviour). -/
def checkComplexityLimits (r : ComplexityResult) (cfg : ComplexityConfig) :
    Option (String × Nat × Nat) :=
  match limitViolation ("maxDepth") cfg.maxDepth r.depth with
  | some v => some v
  | none =>
    match limitViolation ("maxComplexity") cfg.maxComplexity r.complexity with
    | some v => some v
    | none =>
      match limitViolation ("maxAliases") cfg.maxAliases r.aliasCount with
      | some v => some v
      | none => limitViolation ("maxFields") cfg.maxFields r.fieldCount

/-- Modelled from the spec: `validateComplexity`, given the outcome of
the metric analysis (itself abstracted, since the walking code is not
under the sources) and the configured limits. -/
def validateComplexityM (analysis : Except String ComplexityResult) (cfg : ComplexityConfig) :
    Except ComplexityErrorM ComplexityResult :=
  match analysis with
  | .error m => .error (.analysisError m)
  | .ok r =>
    match checkComplexityLimits r cfg with
    | some (lt, l, a) => .error (.limitExceeded lt l a)
    | none => .ok r

/-- The `errors[0]` object produced by `createHandler` /
`makeGraphQLRouter` for a `ComplexityLimitExceededError`. -/
def complexityLimitError (lt : String) (l a : Nat) : GraphQLErrorObj :=
  { message := ("Query complexity limit exceeded"),
    extensions := [(("code"), Json.str ("COMPLEXITY_LIMIT_EXCEEDED")),
                   (("limitType"), Json.str lt),
                   (("limit"), Json.num (Int.ofNat l)),
                   (("actual"), Json.num (Int.ofNat a))] }

/-! ## The one-shot request handler (`createHandler` in
persisted-queries-router.ts)

The external collaborators — body parsing, the GraphQL `parse` /
`validate` / `execute` calls and the complexity analysis — are
abstracted as fields of a `HandlerEnv`, and the handler's control flow
is translated branch by branch. -/

/-- An opaque parsed GraphQL document (`DocumentNode` is owned by the
external parser and only passed around by the engine). -/
structure DocumentNode where
  id : Nat
deriving DecidableEq

/-- An `ExecutionResult` coming back from `graphqlExecute`. -/
structure ExecutionResultM where
  data : Option Json := none
  errors : List GraphQLErrorObj := []
  extensions : ExtensionBag := []

/-- The environment of one `createHandler` invocation. -/
structure HandlerEnv where
  /-- outcome of `parseBody` (`request.json` / `parseGetRequestBody`) -/
  parseBody : Except String GraphQLRequestBody
  mode : PQMode := .apq
  validateHashOption : Bool := true
  computeHash : String → String := fun _ => ("")
  /-- lookup view of the configured store -/
  storeLookup : String → Option String := fun _ => none
  /-- outcome of `parse(body.query)` for each query text -/
  docParse : String → Except String DocumentNode := fun _ => .ok ⟨0⟩
  /-- outcome of `validate(schema, document, validationRules)` -/
  validateDoc : DocumentNode → List String := fun _ => []
  complexity : Option ComplexityConfig := none
  /-- outcome of the complexity metric analysis for each query text -/
  analyze : String → Except String ComplexityResult := fun _ => .ok ⟨0, 0, 0, 0⟩
  extensions : List GraphQLExtensionM := []
  /-- outcome of `graphqlExecute` on the parsed document -/
  executeDoc : DocumentNode → ExecutionResultM := fun _ => {}

/-- The observable outcome of one handler invocation: HTTP status, the
response body fields, whether `graphqlExecute` was invoked, and how
many warnings were logged. -/
structure HandlerResponse where
  status : Nat
  errors : List GraphQLErrorObj := []
  data : Option Json := none
  extensions : Option ExtensionBag := none
  executed : Bool := false
  warnings : Nat := 0

/-- Embedding of `Object.keys(extensionData).length > 0 ? extensionData : undefined`. -/
def emptyToNone (bag : ExtensionBag) : Option ExtensionBag :=
  if bag.isEmpty then none else some bag

/-- JS object spread `{...a, ...b}`: keys of `a` in order with values
overridden by `b` where present, followed by the keys only in `b`. -/
def spreadMerge (a b : ExtensionBag) : ExtensionBag :=
  a.map (fun p => (p.1, (jsGetField b p.1).getD p.2))
    ++ b.filter (fun p => (jsGetField a p.1).isNone)

/-- The tail of `createHandler` from the `onExecuteStart` hooks on:
execute, `onExecuteEnd` hooks, merge of the extension bag into the
result, HTTP 200. -/
def executePhase (env : HandlerEnv) (doc : DocumentNode) (bag : ExtensionBag) (w : Nat) :
    HandlerResponse :=
  let started := runExecuteStartHooksM env.extensions bag
  let res := env.executeDoc doc
  let ended := runExecuteEndHooksM env.extensions started.1
  { status := 200,
    errors := res.errors,
    data := res.data,
    extensions :=
      if ended.1.isEmpty then emptyToNone res.extensions
      else some (spreadMerge res.extensions ended.1),
    executed := true,
    warnings := w + started.2 + ended.2 }

/-- The 400 response `{"errors":[{"message":"No query provided"}]}`. -/
def noQueryResponse : HandlerResponse :=
  { status := 400,
    errors := [{ message := ("No query provided"), extensions := [] }] }

/-- Embedding of `createHandler` from persisted-queries-router.ts, branch by branch:
body-parse failure (400) → persisted-query resolution (protocol errors
are returned as 200 responses via `toGraphQLError`) → missing query
(400) → document parse (parse errors are 200 responses) → `onParse`
hooks → validation (non-empty errors: 400) → `onValidate` hooks →
complexity gate (limit exceeded: 400 with the structured error, caught
at the end of the pipe; analysis failure: warning, fail open) →
`onExecuteStart` hooks → execute → `onExecuteEnd` hooks → merge of the
extension bag (200). -/
def createHandlerM (env : HandlerEnv) : HandlerResponse :=
  match env.parseBody with
  | .error msg =>
      { status := 400, errors := [{ message := msg, extensions := [] }] }
  | .ok rawBody =>
    match resolvePersistedQuery env.mode env.validateHashOption env.computeHash
        env.storeLookup rawBody with
    | .error e =>
        { status := 200, errors := [pqErrorToGraphQLError e] }
    | .ok (body, _write) =>
      match body.query with
      | none => noQueryResponse
      | some q =>
        if q = "" then noQueryResponse
        else
          match env.docParse q with
          | .error parseError =>
              { status := 200,
                errors := [{ message := parseError, extensions := [] }],
                extensions := emptyToNone [] }
          | .ok doc =>
            let parsed := runParseHooksM env.extensions []
            let verrs := env.validateDoc doc
            let validated := runValidateHooksM env.extensions parsed.1
            if verrs ≠ [] then
              { status := 400,
                errors := verrs.map (fun m => { message := m, extensions := [] }),
                extensions := emptyToNone validated.1,
                warnings := parsed.2 + validated.2 }
            else
              match env.complexity with
              | some cfg =>
                match validateComplexityM (env.analyze q) cfg with
                | .error (.limitExceeded lt l a) =>
                    { status := 400,
                      errors := [complexityLimitError lt l a],
                      warnings := parsed.2 + validated.2 }
                | .error (.analysisError _) =>
                    executePhase env doc validated.1 (parsed.2 + validated.2 + 1)
                | .ok _ =>
                    executePhase env doc validated.1 (parsed.2 + validated.2)
              | none =>
                  executePhase env doc validated.1 (parsed.2 + validated.2)

/-! ## SSE events (`sse-types.ts`) -/

mutual

/-- Embedding of `JSON.stringify` on the modelled JSON values (escaping of special
characters inside strings is elided; no claim depends on it). -/
def stringifyJson : Json → String
  | .null => ("null")
  | .bool true => ("true")
  | .bool false => ("false")
  | .num n => intRepr n
  | .str s => ("\"") ++ s ++ ("\"")
  | .arr items => ("[") ++ stringifyJsonItems items ++ ("]")
  | .obj fields => ("\x7b") ++ stringifyJsonFields fields ++ ("\x7d")

/-- Comma-separated serialization of array elements. -/
def stringifyJsonItems : List Json → String
  | [] => ("")
  | [x] => stringifyJson x
  | x :: y :: rest => stringifyJson x ++ (",") ++ stringifyJsonItems (y :: rest)

/-- Comma-separated serialization of object fields. -/
def stringifyJsonFields : List (String × Json) → String
  | [] => ("")
  | [(k, v)] => ("\"") ++ k ++ ("\":") ++ stringifyJson v
  | (k, v) :: y :: rest =>
      ("\"") ++ k ++ ("\":") ++ stringifyJson v ++ (",") ++ stringifyJsonFields (y :: rest)

end

/-- Embedding of `SSEEventType` from sse-types.ts. -/
inductive SSEEventType where
  | next
  | error
  | complete
deriving DecidableEq

/-- Embedding of `SSEEvent` from sse-types.ts: the event type and its `data`
payload, already serialized to a string. -/
structure SSEEvent where
  event : SSEEventType
  data : String
deriving DecidableEq

/-- The wire name of each event type. -/
def eventTypeName : SSEEventType → String
  | .next => ("next")
  | .error => ("error")
  | .complete => ("complete")

/-- Embedding of `formatNextEvent`: `{event: "next", data: JSON.stringify(result)}`. -/
def formatNextEvent (result : Json) : SSEEvent :=
  { event := .next, data := stringifyJson result }

/-- Embedding of `formatErrorEvent`: `{event: "error", data: JSON.stringify({errors})}`. -/
def formatErrorEvent (errors : List Json) : SSEEvent :=
  { event := .error, data := stringifyJson (Json.obj [(("errors"), Json.arr errors)]) }

/-- Embedding of `formatCompleteEvent`: `{event: "complete", data: ""}`. -/
def formatCompleteEvent : SSEEvent :=
  { event := .complete, data := "" }

/-- Embedding of `formatSSEMessage` from sse-types.ts: build the line list —
`event: <type>`, then `data: <data>` only under the JS truthiness test
`if (event.data)` (false for the empty string), then two empty lines —
and join with newlines. -/
def formatSSEMessage (e : SSEEvent) : String :=
  let lines := [("event: ") ++ eventTypeName e.event]
  let lines := if e.data ≠ ("") then lines ++ [("data: ") ++ e.data] else lines
  let lines := lines ++ [(""), ("")]
  String.intercalate ("\n") lines

/-- Whether some line of a wire message carries a `data:` field
(used to state what the serialized form of an event contains). -/
def occursIn (needle : List Char) : List Char → Bool
  | [] => needle.isEmpty
  | c :: rest => (needle.isPrefixOf (c :: rest) : Bool) || occursIn needle rest

/-- Whether the serialized message contains a `data:` line. -/
def hasDataLine (s : String) : Bool :=
  occursIn (("\ndata:").data) s.data

/-! ## The SSE subscription stream (`makeSSESubscriptionStream` in
schema-builder-extensions.ts)

The stream is a finite sequence of `SSEEvent`s; the external
collaborators (the connect hook, `parse`, `validate`, the complexity
analysis and `subscribe`) are abstracted as fields of an `SSEEnv`. -/

/-- A GraphQL error rendered to JSON, as `formatErrorEvent` receives
it: a message plus an optional `extensions.code`. -/
def gqlErrorJson (message : String) (code : Option String) : Json :=
  match code with
  | some c =>
      Json.obj [(("message"), Json.str message),
                (("extensions"), Json.obj [(("code"), Json.str c)])]
  | none => Json.obj [(("message"), Json.str message)]

/-- The complexity-limit error pushed on the SSE stream, carrying
`code`, `limitType`, `limit` and `actual`. -/
def complexityLimitErrorJson (lt : String) (l a : Nat) : Json :=
  Json.obj [(("message"), Json.str ("Query complexity limit exceeded")),
            (("extensions"),
              Json.obj [(("code"), Json.str ("COMPLEXITY_LIMIT_EXCEEDED")),
                        (("limitType"), Json.str lt),
                        (("limit"), Json.num (Int.ofNat l)),
                        (("actual"), Json.num (Int.ofNat a))])]

/-- One operation definition of the parsed document: its optional name
and its operation type (`"query"`, `"mutation"` or `"subscription"`). -/
structure OperationM where
  name : Option String := none
  opType : String := ("subscription")
deriving DecidableEq

/-- The parsed document, reduced to what the SSE engine reads out of
it: its operation definitions. -/
structure SSEDocument where
  operations : List OperationM
deriving DecidableEq

/-- The `SSESubscriptionRequest` fields the engine reads. -/
structure SSERequest where
  query : String
  operationName : Option String := none
deriving DecidableEq

/-- What `subscribe(...)` produced: a rejected promise, a plain
`ExecutionResult` (not an async iterable), or an async iterator that
yields `results` and then either completes or throws
`iterationError`. -/
inductive SubscribeOutcome where
  | failed (message : String)
  | execResult (result : Json) (errors : Option (List Json))
  | eventStream (results : List Json) (iterationError : Option Json)

/-- The environment of one `makeSSESubscriptionStream` invocation. -/
structure SSEEnv where
  /-- Embedding of `options?.onConnect`: absent, or its outcome (context or rejection) -/
  onConnect : Option (Except String (List (String × Json))) := none
  request : SSERequest
  docParse : String → Except String SSEDocument := fun _ => .ok ⟨[{}]⟩
  validateDoc : SSEDocument → List String := fun _ => []
  complexity : Option ComplexityConfig := none
  analyze : String → Except String ComplexityResult := fun _ => .ok ⟨0, 0, 0, 0⟩
  /-- Embedding of `options?.onSubscribe`: absent, or its outcome (failures are
  swallowed by `Effect.catchAll(() => Effect.void)`) -/
  onSubscribe : Option (Except String Unit) := none
  subscribe : SubscribeOutcome := .eventStream [] none

/-- The operation selection of `makeSSESubscriptionStream`: the
operation definition matching `request.operationName`, or the first
one. -/
def findOperationM (request : SSERequest) (doc : SSEDocument) : Option OperationM :=
  match request.operationName with
  | some n => doc.operations.find? (fun (o : OperationM) => o.name == some n)
  | none => doc.operations.head?

/-- The tail of `makeSSESubscriptionStream` from the `subscribe` call
on: a rejected `subscribe` promise fails the surrounding effect and is
turned into an `INTERNAL_ERROR` event by the outer `catchAll`; an
error-carrying `ExecutionResult` becomes one error event; otherwise the
iterator's events are streamed as `next` events, an iteration error
appends one error event, and `Stream.concat` appends the final
`complete` event.  The boolean records that `subscribe` was invoked. -/
def sseExecute (env : SSEEnv) : List SSEEvent × Bool :=
  match env.subscribe with
  | .failed msg =>
      ([formatErrorEvent [gqlErrorJson msg (some ("INTERNAL_ERROR"))], formatCompleteEvent], true)
  | .execResult result errors =>
      match errors with
      | some es => ([formatErrorEvent es, formatCompleteEvent], true)
      | none => ([formatNextEvent result, formatCompleteEvent], true)
  | .eventStream results iterationError =>
      (results.map formatNextEvent
        ++ (match iterationError with
            | some e => [formatErrorEvent [e]]
            | none => [])
        ++ [formatCompleteEvent], true)

/-- Embedding of `makeSSESubscriptionStream`, branch by branch: connect-hook
rejection, document parse failure, validation failure, operation lookup
failure, non-subscription operation and complexity-limit failure each
produce one error event plus the `complete` event without calling
`subscribe`; a complexity analysis failure logs a warning and falls
open; then `sseExecute` runs the subscription.  Returns the emitted
events and whether `subscribe` was invoked. -/
def makeSSESubscriptionStreamM (env : SSEEnv) : List SSEEvent × Bool :=
  match env.onConnect with
  | some (.error _) =>
      ([formatErrorEvent
          [gqlErrorJson ("Subscription connection rejected") (some ("CONNECTION_REJECTED"))],
        formatCompleteEvent], false)
  | _ =>
    match env.docParse env.request.query with
    | .error msg =>
        ([formatErrorEvent [gqlErrorJson msg none], formatCompleteEvent], false)
    | .ok doc =>
      if env.validateDoc doc ≠ [] then
        ([formatErrorEvent ((env.validateDoc doc).map (fun m => gqlErrorJson m none)),
          formatCompleteEvent], false)
      else
        match findOperationM env.request doc with
        | none =>
            ([formatErrorEvent [gqlErrorJson ("No operation found in query") none],
              formatCompleteEvent], false)
        | some op =>
          if op.opType ≠ ("subscription") then
            ([formatErrorEvent
                [gqlErrorJson (("SSE endpoint only supports subscriptions, received: ") ++ op.opType)
                  (some ("OPERATION_NOT_SUPPORTED"))],
              formatCompleteEvent], false)
          else
            match env.complexity with
            | some cfg =>
              match validateComplexityM (env.analyze env.request.query) cfg with
              | .error (.limitExceeded lt l a) =>
                  ([formatErrorEvent [complexityLimitErrorJson lt l a], formatCompleteEvent], false)
              | .error (.analysisError _) => sseExecute env
              | .ok _ => sseExecute env
            | none => sseExecute env

/-! ## Hook-failure erasure

Used to state the isolation guarantee: replacing every hook by the same
hook with its failure channel erased ("as if the hook had succeeded")
must leave the response unchanged. -/

/-- The same hook, with its failure erased. -/
def eraseHookFailure (h : HookFn) : HookFn :=
  fun bag => ((h bag).1, none)

/-- An extension with every hook's failure erased. -/
def eraseExtensionFailures (e : GraphQLExtensionM) : GraphQLExtensionM :=
  { onParse := e.onParse.map eraseHookFailure,
    onValidate := e.onValidate.map eraseHookFailure,
    onExecuteStart := e.onExecuteStart.map eraseHookFailure,
    onExecuteEnd := e.onExecuteEnd.map eraseHookFailure }

/-- The connect hook did not reject: it is absent or returned a
context. -/
def connectAccepted (env : SSEEnv) : Prop :=
  env.onConnect = none ∨ ∃ ctx, env.onConnect = some (Except.ok ctx)

/-- A malformed `persistedQuery` value, in the cases the spec lists:
not an object, `version` or `sha256Hash` missing, `version` not a
number, or `sha256Hash` not a string. -/
def malformedPersistedQuery (pq : Json) : Bool :=
  match pq with
  | .obj fields =>
      match jsGetField fields ("version"), jsGetField fields ("sha256Hash") with
      | none, _ => true
      | some _, none => true
      | some v, some s =>
          (match v with | .num _ => false | _ => true)
            || (match s with | .str _ => false | _ => true)
  | _ => true

/-! # Theorems -/

/-- Helper: a positive-length string is not empty. -/
theorem ne_empty_of_length_pos {s : String} (h : 0 < s.length) : s ≠ ("") := by
  intro he
  rw [he] at h
  simp at h

/-- C1 (code bug): the claim says the automatic-policy store holds at
most `N` entries after every operation sequence, evicting the
lowest-stamp entry on overflow.  The code's `evictLRU` guards the
deletion with the JS truthiness test `if (oldestKey)`, which is false
for the empty-string key, so when the least-recently-used entry is
keyed by `""` no eviction happens.  Evaluation at the failing input:
capacity 1, `set("", "q1")` then `set("a", "q2")` leaves the store with
2 entries, and the lowest-stamp entry `""` (stamp 1) is still
present. -/
theorem C1_capacity_bound_violated_eval :
    ((storeSet 1 ("a") ("q2") (storeSet 1 ("") ("q1") 0 []).1
        (storeSet 1 ("") ("q1") 0 []).2).2).length = 2 ∧
    mapGet ((storeSet 1 ("a") ("q2") (storeSet 1 ("") ("q1") 0 []).1
        (storeSet 1 ("") ("q1") 0 []).2).2) ("") = some ⟨("q1"), 1⟩ := by
  constructor
  · rfl
  · rfl

/-- C7 (counterexample): the claim says the access counter is owned by
the individual store instance, not shared process-globally.  In the
code `accessCounter` is a module-level variable shared by every
instance `makeMemoryStore` creates: after one `set` on a first store
(advancing the module counter to 1), the first `set` on a second,
freshly created store stamps its entry with 2, whereas a second store
owning its own counter would stamp it with 1 (as the second conjunct
shows for a store starting from a fresh counter). -/
theorem C7_counterexample :
    (storeSet 1000 ("h2") ("q2") (storeSet 1000 ("h1") ("q1") 0 []).1 []).2
        = [(("h2"), ⟨("q2"), 2⟩)] ∧
    (storeSet 1000 ("h2") ("q2") 0 []).2 = [(("h2"), ⟨("q2"), 1⟩)] := by
  constructor
  · rfl
  · rfl

/-- C7 (amended): the access counter is strictly monotonically
increasing across successive `get`-hit and `set` operations — each
`set` and each `get` hit advances it by exactly one and stamps the
touched entry with the new value, and a `get` miss leaves it unchanged
— but the counter is module-global, shared by all memory-store
instances, not owned per instance. -/
theorem C7_counter_monotonic (maxSize : Nat) (hash query : String) (counter : Nat)
    (cache : List (String × CacheEntry)) :
    (storeSet maxSize hash query counter cache).1 = counter + 1 ∧
    ((mapGet cache hash).isSome = true →
      (storeGet hash counter cache).2.1 = counter + 1) ∧
    ((mapGet cache hash).isSome = false →
      (storeGet hash counter cache).2.1 = counter) := by
  refine ⟨rfl, ?_, ?_⟩
  · intro hsome
    unfold storeGet
    cases hg : mapGet cache hash with
    | none => rw [hg] at hsome; simp at hsome
    | some e => rfl
  · intro hnone
    unfold storeGet
    cases hg : mapGet cache hash with
    | none => rfl
    | some e => rw [hg] at hnone; simp at hnone

/-- C7 witness: the amended theorem applied at a concrete store
state. -/
theorem C7_counter_monotonic_witness :
    (storeSet 5 ("h") ("q") 3 [(("h"), ⟨("q0"), 1⟩)]).1 = 4 ∧
    (storeGet ("h") 3 [(("h"), ⟨("q0"), 1⟩)]).2.1 = 4 := by
  have h := C7_counter_monotonic 5 ("h") ("q") 3 [(("h"), ⟨("q0"), 1⟩)]
  exact ⟨h.1, h.2.1 (by rfl)⟩

/-- Helper: `natRepr` produces at least one character. -/
theorem natRepr_length_pos (n : Nat) : 0 < (natRepr n).length := by
  rw [natRepr]
  split
  · simp
  · rw [String.length_append]
    simp

/-- Helper: `intRepr` produces at least one character. -/
theorem intRepr_length_pos (n : Int) : 0 < (intRepr n).length := by
  cases n with
  | ofNat m => exact natRepr_length_pos m
  | negSucc m =>
      rw [intRepr, String.length_append]
      have := natRepr_length_pos (m + 1)
      omega

/-- Helper: `JSON.stringify` never produces the empty string. -/
theorem stringifyJson_length_pos (j : Json) : 0 < (stringifyJson j).length := by
  cases j with
  | null => decide
  | bool b => cases b <;> decide
  | num n => rw [stringifyJson]; exact intRepr_length_pos n
  | str s =>
      rw [stringifyJson, String.length_append, String.length_append]
      have h1 : (("\"") : String).length = 1 := rfl
      omega
  | arr items =>
      rw [stringifyJson, String.length_append, String.length_append]
      have h1 : (("[") : String).length = 1 := rfl
      have h2 : (("]") : String).length = 1 := rfl
      omega
  | obj fields =>
      rw [stringifyJson, String.length_append, String.length_append]
      have h1 : (("\x7b") : String).length = 1 := rfl
      have h2 : (("\x7d") : String).length = 1 := rfl
      omega

/-- Helper: `JSON.stringify` output is not the empty string. -/
theorem stringifyJson_ne_empty (j : Json) : stringifyJson j ≠ ("") :=
  ne_empty_of_length_pos (stringifyJson_length_pos j)

/-- Helper: the serialized form of an event with non-empty data. -/
theorem formatSSEMessage_of_data_ne_empty (t : SSEEventType) (d : String) (hd : d ≠ ("")) :
    formatSSEMessage ⟨t, d⟩
      = ("event: ") ++ eventTypeName t ++ ("\ndata: ") ++ d ++ ("\n\n") := by
  simp only [formatSSEMessage, hd, ne_eq, not_false_eq_true, if_true, ite_true]
  simp [String.intercalate, String.intercalate.go]
  apply String.ext
  simp [String.data_append]

/-- Helper: the last stream element produced by `sseExecute` is the
`complete` event. -/
theorem sseExecute_getLast (env : SSEEnv) :
    ((sseExecute env).1).getLast? = some formatCompleteEvent := by
  unfold sseExecute
  cases env.subscribe with
  | failed msg => rfl
  | execResult result errors => cases errors <;> rfl
  | eventStream results iterationError => exact List.getLast?_concat _

/-- Helper: the last stream element of `makeSSESubscriptionStream` is
always the `complete` event. -/
theorem sseStream_getLast (env : SSEEnv) :
    ((makeSSESubscriptionStreamM env).1).getLast? = some formatCompleteEvent := by
  unfold makeSSESubscriptionStreamM
  repeat' split
  all_goals first
    | rfl
    | exact sseExecute_getLast env

/-- C8 (amended): every `next` and `error` SSE event serializes to an
`event:` line followed by a `data:` line and a blank-line terminator;
the `complete` event serializes to the `event: complete` line and the
blank-line terminator with no `data:` line (its data is the empty
string, which fails the JS truthiness test in `formatSSEMessage`); and
every stream produced by the SSE engine ends with the `complete`
event. -/
theorem C8_sse_wire_format :
    (∀ result : Json,
        formatSSEMessage (formatNextEvent result)
          = ("event: next\ndata: ") ++ stringifyJson result ++ ("\n\n")) ∧
    (∀ errors : List Json,
        formatSSEMessage (formatErrorEvent errors)
          = ("event: error\ndata: ")
              ++ stringifyJson (Json.obj [(("errors"), Json.arr errors)]) ++ ("\n\n")) ∧
    formatSSEMessage formatCompleteEvent = ("event: complete\n\n") ∧
    (∀ env : SSEEnv,
        ((makeSSESubscriptionStreamM env).1).getLast? = some formatCompleteEvent) := by
  refine ⟨?_, ?_, ?_, sseStream_getLast⟩
  · intro result
    have h := formatSSEMessage_of_data_ne_empty .next (stringifyJson result)
      (stringifyJson_ne_empty result)
    rw [formatNextEvent, h]
    apply String.ext
    simp [String.data_append, eventTypeName]
  · intro errors
    have h := formatSSEMessage_of_data_ne_empty .error
      (stringifyJson (Json.obj [(("errors"), Json.arr errors)]))
      (stringifyJson_ne_empty _)
    rw [formatErrorEvent, h]
    apply String.ext
    simp [String.data_append, eventTypeName]
  · rfl

/-- C8 (counterexample): the claim says next, error and complete events
alike serialize with a `data:` line; the complete event's wire form is
`event: complete` followed by the blank-line terminator only, with no
`data:` line (third conjunct shows a next event does carry one). -/
theorem C8_counterexample :
    formatSSEMessage formatCompleteEvent = ("event: complete\n\n") ∧
    hasDataLine (formatSSEMessage formatCompleteEvent) = false ∧
    hasDataLine (formatSSEMessage (formatNextEvent Json.null)) = true := by
  refine ⟨rfl, rfl, rfl⟩

/-- Helper: events produced by `sseExecute` contain exactly one
`complete` event. -/
theorem sseExecute_complete_count (env : SSEEnv) :
    ((sseExecute env).1).countP (fun e => e.event == SSEEventType.complete) = 1 := by
  unfold sseExecute
  cases env.subscribe with
  | failed msg => rfl
  | execResult result errors => cases errors <;> rfl
  | eventStream results iterationError =>
      cases iterationError with
      | none =>
          simp [List.countP_append, List.countP_map, formatNextEvent, formatCompleteEvent,
            List.countP_cons, Function.comp]
      | some e =>
          simp [List.countP_append, List.countP_map, formatNextEvent, formatCompleteEvent,
            formatErrorEvent, List.countP_cons, Function.comp]

/-- Helper: every stream of the SSE engine contains exactly one
`complete` event. -/
theorem sseStream_complete_count (env : SSEEnv) :
    ((makeSSESubscriptionStreamM env).1).countP
        (fun e => e.event == SSEEventType.complete) = 1 := by
  unfold makeSSESubscriptionStreamM
  repeat' split
  all_goals first
    | rfl
    | exact sseExecute_complete_count env

/-- C10: every stream produced by the SSE subscription engine
terminates with the `complete` event as its final element and contains
exactly one `complete` event; connect-hook rejection, document parse
failure, validation failure, missing operation, a non-subscription
operation and a complexity-limit failure each produce exactly one error
event followed by the `complete` event without invoking `subscribe`;
and a successfully executed subscription emits its `next` events
followed by the single `complete` event. -/
theorem C10_sse_stream_shape :
    (∀ env : SSEEnv,
        ((makeSSESubscriptionStreamM env).1).getLast? = some formatCompleteEvent ∧
        ((makeSSESubscriptionStreamM env).1).countP
            (fun e => e.event == SSEEventType.complete) = 1) ∧
    (∀ (env : SSEEnv) (msg : String), env.onConnect = some (.error msg) →
        (∃ errs, (makeSSESubscriptionStreamM env).1
            = [formatErrorEvent errs, formatCompleteEvent]) ∧
        (makeSSESubscriptionStreamM env).2 = false) ∧
    (∀ (env : SSEEnv) (msg : String), connectAccepted env →
        env.docParse env.request.query = .error msg →
        (∃ errs, (makeSSESubscriptionStreamM env).1
            = [formatErrorEvent errs, formatCompleteEvent]) ∧
        (makeSSESubscriptionStreamM env).2 = false) ∧
    (∀ (env : SSEEnv) (doc : SSEDocument), connectAccepted env →
        env.docParse env.request.query = .ok doc →
        env.validateDoc doc ≠ [] →
        (∃ errs, (makeSSESubscriptionStreamM env).1
            = [formatErrorEvent errs, formatCompleteEvent]) ∧
        (makeSSESubscriptionStreamM env).2 = false) ∧
    (∀ (env : SSEEnv) (doc : SSEDocument) (op : OperationM), connectAccepted env →
        env.docParse env.request.query = .ok doc →
        env.validateDoc doc = [] →
        findOperationM env.request doc = some op →
        op.opType ≠ ("subscription") →
        (∃ errs, (makeSSESubscriptionStreamM env).1
            = [formatErrorEvent errs, formatCompleteEvent]) ∧
        (makeSSESubscriptionStreamM env).2 = false) ∧
    (∀ (env : SSEEnv) (doc : SSEDocument) (op : OperationM) (cfg : ComplexityConfig)
        (r : ComplexityResult) (lt : String) (l a : Nat), connectAccepted env →
        env.docParse env.request.query = .ok doc →
        env.validateDoc doc = [] →
        findOperationM env.request doc = some op →
        op.opType = ("subscription") →
        env.complexity = some cfg →
        env.analyze env.request.query = .ok r →
        checkComplexityLimits r cfg = some (lt, l, a) →
        (makeSSESubscriptionStreamM env).1
            = [formatErrorEvent [complexityLimitErrorJson lt l a], formatCompleteEvent] ∧
        (makeSSESubscriptionStreamM env).2 = false) ∧
    (∀ (env : SSEEnv) (doc : SSEDocument) (op : OperationM) (results : List Json),
        connectAccepted env →
        env.docParse env.request.query = .ok doc →
        env.validateDoc doc = [] →
        findOperationM env.request doc = some op →
        op.opType = ("subscription") →
        env.complexity = none →
        env.subscribe = .eventStream results none →
        (makeSSESubscriptionStreamM env).1
            = results.map formatNextEvent ++ [formatCompleteEvent] ∧
        (makeSSESubscriptionStreamM env).2 = true) := by
  refine ⟨fun env => ⟨sseStream_getLast env, sseStream_complete_count env⟩, ?_, ?_, ?_, ?_, ?_, ?_⟩
  · intro env msg hconn
    constructor
    · exact ⟨_, by simp [makeSSESubscriptionStreamM, hconn]; rfl⟩
    · simp [makeSSESubscriptionStreamM, hconn]
  · rintro env msg (hNone | ⟨ctx, hOk⟩) hdoc
    · constructor
      · exact ⟨_, by simp [makeSSESubscriptionStreamM, hNone, hdoc]; rfl⟩
      · simp [makeSSESubscriptionStreamM, hNone, hdoc]
    · constructor
      · exact ⟨_, by simp [makeSSESubscriptionStreamM, hOk, hdoc]; rfl⟩
      · simp [makeSSESubscriptionStreamM, hOk, hdoc]
  · rintro env doc (hNone | ⟨ctx, hOk⟩) hdoc hval
    · constructor
      · exact ⟨_, by simp [makeSSESubscriptionStreamM, hNone, hdoc, hval]; rfl⟩
      · simp [makeSSESubscriptionStreamM, hNone, hdoc, hval]
    · constructor
      · exact ⟨_, by simp [makeSSESubscriptionStreamM, hOk, hdoc, hval]; rfl⟩
      · simp [makeSSESubscriptionStreamM, hOk, hdoc, hval]
  · rintro env doc op (hNone | ⟨ctx, hOk⟩) hdoc hval hfind hop
    · constructor
      · exact ⟨_, by simp [makeSSESubscriptionStreamM, hNone, hdoc, hval, hfind, hop]; rfl⟩
      · simp [makeSSESubscriptionStreamM, hNone, hdoc, hval, hfind, hop]
    · constructor
      · exact ⟨_, by simp [makeSSESubscriptionStreamM, hOk, hdoc, hval, hfind, hop]; rfl⟩
      · simp [makeSSESubscriptionStreamM, hOk, hdoc, hval, hfind, hop]
  · rintro env doc op cfg r lt l a (hNone | ⟨ctx, hOk⟩) hdoc hval hfind hop hcfg han hchk
    · constructor
      · simp [makeSSESubscriptionStreamM, hNone, hdoc, hval, hfind, hop, hcfg,
          validateComplexityM, han, hchk]
      · simp [makeSSESubscriptionStreamM, hNone, hdoc, hval, hfind, hop, hcfg,
          validateComplexityM, han, hchk]
    · constructor
      · simp [makeSSESubscriptionStreamM, hOk, hdoc, hval, hfind, hop, hcfg,
          validateComplexityM, han, hchk]
      · simp [makeSSESubscriptionStreamM, hOk, hdoc, hval, hfind, hop, hcfg,
          validateComplexityM, han, hchk]
  · rintro env doc op results (hNone | ⟨ctx, hOk⟩) hdoc hval hfind hop hcfg hsub
    · constructor
      · simp [makeSSESubscriptionStreamM, hNone, hdoc, hval, hfind, hop, hcfg,
          sseExecute, hsub]
      · simp [makeSSESubscriptionStreamM, hNone, hdoc, hval, hfind, hop, hcfg,
          sseExecute, hsub]
    · constructor
      · simp [makeSSESubscriptionStreamM, hOk, hdoc, hval, hfind, hop, hcfg,
          sseExecute, hsub]
      · simp [makeSSESubscriptionStreamM, hOk, hdoc, hval, hfind, hop, hcfg,
          sseExecute, hsub]

/-- C10 witness: the theorem applied to a concrete environment whose
connect hook rejects: the stream does not invoke `subscribe` and ends
with the `complete` event. -/
theorem C10_sse_stream_shape_witness :
    (makeSSESubscriptionStreamM
        { onConnect := some (.error ("denied")),
          request := { query := ("subscription Q on X") } }).2 = false ∧
    ((makeSSESubscriptionStreamM
        { onConnect := some (.error ("denied")),
          request := { query := ("subscription Q on X") } }).1).getLast?
      = some formatCompleteEvent := by
  have h := C10_sse_stream_shape
  exact ⟨(h.2.1 _ ("denied") rfl).2, (h.1 _).1⟩

/-- Helper: looking up the key just written finds the fresh entry. -/
theorem mapGet_mapSet_self (cache : List (String × CacheEntry)) (hash : String) (e : CacheEntry) :
    mapGet (mapSet cache hash e) hash = some e := by
  induction cache with
  | nil => simp [mapSet, mapGet]
  | cons p rest ih =>
      obtain ⟨k, v⟩ := p
      by_cases hk : k = hash
      · simp [mapSet, hk, mapGet]
      · simp [mapSet, hk, mapGet, ih]

/-- Helper: deleting a different key does not change a lookup. -/
theorem mapGet_mapDelete_ne (cache : List (String × CacheEntry)) (key hash : String)
    (hne : key ≠ hash) : mapGet (mapDelete cache key) hash = mapGet cache hash := by
  induction cache with
  | nil => rfl
  | cons p rest ih =>
      obtain ⟨k, v⟩ := p
      by_cases hk : k = key
      · subst hk
        simp [mapDelete, mapGet, hne]
      · by_cases hh : k = hash
        · simp [mapDelete, mapGet, hk, hh, Ne.symm hne]
        · simp [mapDelete, mapGet, hk, hh, ih]

/-- Helper: members of `mapSet cache hash e` are either the fresh entry
or members of the original map. -/
theorem mem_mapSet (cache : List (String × CacheEntry)) (hash : String) (e : CacheEntry)
    (p : String × CacheEntry) (hp : p ∈ mapSet cache hash e) :
    p = (hash, e) ∨ p ∈ cache := by
  induction cache with
  | nil => simpa [mapSet] using hp
  | cons q rest ih =>
      obtain ⟨k, v⟩ := q
      by_cases hk : k = hash
      · rw [mapSet, if_pos hk] at hp
        rcases List.mem_cons.mp hp with h | h
        · exact Or.inl h
        · exact Or.inr (List.mem_cons_of_mem _ h)
      · rw [mapSet, if_neg hk] at hp
        rcases List.mem_cons.mp hp with h | h
        · exact Or.inr (by simp [h])
        · rcases ih h with h' | h'
          · exact Or.inl h'
          · exact Or.inr (List.mem_cons_of_mem _ h')

/-- Helper: keys of `mapSet cache hash e` are the old keys or `hash`. -/
theorem key_mem_mapSet (cache : List (String × CacheEntry)) (hash : String) (e : CacheEntry)
    (a : String) (ha : a ∈ (mapSet cache hash e).map Prod.fst) :
    a = hash ∨ a ∈ cache.map Prod.fst := by
  rcases List.mem_map.mp ha with ⟨p, hp, hpa⟩
  rcases mem_mapSet cache hash e p hp with h | h
  · left; rw [← hpa, h]
  · right; exact List.mem_map.mpr ⟨p, h, hpa⟩

/-- Helper: `mapSet` preserves distinctness of keys. -/
theorem nodup_keys_mapSet (cache : List (String × CacheEntry)) (hash : String) (e : CacheEntry)
    (hnd : (cache.map Prod.fst).Nodup) : ((mapSet cache hash e).map Prod.fst).Nodup := by
  induction cache with
  | nil => simp [mapSet]
  | cons p rest ih =>
      obtain ⟨k, v⟩ := p
      rw [List.map_cons, List.nodup_cons] at hnd
      by_cases hk : k = hash
      · rw [mapSet, if_pos hk, List.map_cons, List.nodup_cons]
        exact ⟨by rw [← hk]; exact hnd.1, hnd.2⟩
      · rw [mapSet, if_neg hk, List.map_cons, List.nodup_cons]
        refine ⟨?_, ih hnd.2⟩
        intro hmem
        rcases key_mem_mapSet rest hash e k hmem with h | h
        · exact hk h
        · exact hnd.1 h

/-- Helper: with distinct keys, the only entry of `mapSet cache hash e`
keyed by `hash` is the fresh one. -/
theorem mem_mapSet_self_eq (cache : List (String × CacheEntry)) (hash : String)
    (e e' : CacheEntry) (hnd : (cache.map Prod.fst).Nodup)
    (hmem : (hash, e') ∈ mapSet cache hash e) : e' = e := by
  induction cache with
  | nil =>
      rw [mapSet] at hmem
      exact congrArg Prod.snd (List.mem_singleton.mp hmem)
  | cons p rest ih =>
      obtain ⟨k, v⟩ := p
      rw [List.map_cons, List.nodup_cons] at hnd
      by_cases hk : k = hash
      · rw [mapSet, if_pos hk] at hmem
        rcases List.mem_cons.mp hmem with h | h
        · exact congrArg Prod.snd h
        · exfalso
          apply hnd.1
          rw [hk]
          exact List.mem_map.mpr ⟨(hash, e'), h, rfl⟩
      · rw [mapSet, if_neg hk] at hmem
        rcases List.mem_cons.mp hmem with h | h
        · exact absurd (congrArg Prod.fst h).symm hk
        · exact ih hnd.2 h

/-- Helper: the scan loop of `evictLRU` returns an entry of the map (or
the accumulator), whose order is a lower bound of all orders in the map
and of the accumulator's order. -/
theorem findOldestEntry_spec (cache : List (String × CacheEntry)) :
    ∀ (acc : Option (String × Nat)) (k : String) (o : Nat),
      findOldestEntry cache acc = some (k, o) →
      ((∃ e : CacheEntry, (k, e) ∈ cache ∧ e.accessOrder = o) ∨ acc = some (k, o)) ∧
      (∀ p ∈ cache, o ≤ p.2.accessOrder) ∧
      (∀ k0 o0, acc = some (k0, o0) → o ≤ o0) := by
  induction cache with
  | nil =>
      intro acc k o h
      rw [findOldestEntry] at h
      refine ⟨Or.inr h, by simp, ?_⟩
      intro k0 o0 hacc
      rw [hacc] at h
      cases h
      rfl
  | cons p rest ih =>
      intro acc k o h
      obtain ⟨k1, e1⟩ := p
      cases acc with
      | none =>
          rw [findOldestEntry] at h
          have hspec := ih (some (k1, e1.accessOrder)) k o h
          have hle : o ≤ e1.accessOrder := hspec.2.2 k1 e1.accessOrder rfl
          refine ⟨?_, ?_, by simp⟩
          · rcases hspec.1 with h' | h'
            · rcases h' with ⟨e, he, heo⟩
              exact Or.inl ⟨e, List.mem_cons_of_mem _ he, heo⟩
            · cases h'
              exact Or.inl ⟨e1, List.mem_cons_self _ _, rfl⟩
          · intro q hq
            rcases List.mem_cons.mp hq with h' | h'
            · rw [h']; exact hle
            · exact hspec.2.1 q h'
      | some a =>
          obtain ⟨k0, o0⟩ := a
          rw [findOldestEntry] at h
          by_cases hlt : e1.accessOrder < o0
          · rw [if_pos hlt] at h
            have hspec := ih (some (k1, e1.accessOrder)) k o h
            have hle : o ≤ e1.accessOrder := hspec.2.2 k1 e1.accessOrder rfl
            refine ⟨?_, ?_, ?_⟩
            · rcases hspec.1 with h' | h'
              · rcases h' with ⟨e, he, heo⟩
                exact Or.inl ⟨e, List.mem_cons_of_mem _ he, heo⟩
              · cases h'
                exact Or.inl ⟨e1, List.mem_cons_self _ _, rfl⟩
            · intro q hq
              rcases List.mem_cons.mp hq with h' | h'
              · rw [h']; exact hle
              · exact hspec.2.1 q h'
            · intro k0' o0' hacc
              cases hacc
              omega
          · rw [if_neg hlt] at h
            have hspec := ih (some (k0, o0)) k o h
            have hle : o ≤ o0 := hspec.2.2 k0 o0 rfl
            refine ⟨?_, ?_, ?_⟩
            · rcases hspec.1 with h' | h'
              · rcases h' with ⟨e, he, heo⟩
                exact Or.inl ⟨e, List.mem_cons_of_mem _ he, heo⟩
              · exact Or.inr h'
            · intro q hq
              rcases List.mem_cons.mp hq with h' | h'
              · rw [h']; show o ≤ e1.accessOrder; omega
              · exact hspec.2.1 q h'
            · intro k0' o0' hacc
              cases hacc
              exact hle

/-- Helper: a map with distinct keys and at least two entries has an
entry whose key differs from any given key. -/
theorem exists_other_key (cache : List (String × CacheEntry)) (h : String)
    (hnd : (cache.map Prod.fst).Nodup) (hlen : 2 ≤ cache.length) :
    ∃ p ∈ cache, p.1 ≠ h := by
  match cache, hlen with
  | p :: q :: rest, _ =>
    rw [List.map_cons, List.nodup_cons] at hnd
    by_cases hp : p.1 = h
    · refine ⟨q, by simp, ?_⟩
      intro hq
      apply hnd.1
      rw [List.map_cons]
      exact List.mem_cons.mpr (Or.inl (by rw [hp, hq]))
    · exact ⟨p, by simp, hp⟩

/-- Helper: on a store whose stamps are all at most the current counter
and whose keys are distinct, a `set` leaves the freshly written entry in
place (with positive capacity the evicted entry, if any, is a different,
strictly older one). -/
theorem mapGet_after_storeSet (maxSize : Nat) (hmax : 1 ≤ maxSize) (counter : Nat)
    (cache : List (String × CacheEntry))
    (hkeys : (cache.map Prod.fst).Nodup)
    (hinv : ∀ p ∈ cache, p.2.accessOrder ≤ counter)
    (h q : String) :
    mapGet (storeSet maxSize h q counter cache).2 h = some ⟨q, counter + 1⟩ := by
  show mapGet (evictLRU maxSize (mapSet cache h ⟨q, counter + 1⟩)) h = some ⟨q, counter + 1⟩
  have hget : mapGet (mapSet cache h ⟨q, counter + 1⟩) h = some ⟨q, counter + 1⟩ :=
    mapGet_mapSet_self cache h ⟨q, counter + 1⟩
  rw [evictLRU]
  by_cases hlen : (mapSet cache h ⟨q, counter + 1⟩).length ≤ maxSize
  · rw [if_pos hlen]
    exact hget
  · rw [if_neg hlen]
    cases hfind : findOldestEntry (mapSet cache h ⟨q, counter + 1⟩) none with
    | none => exact hget
    | some a =>
        obtain ⟨km, om⟩ := a
        have hspec := findOldestEntry_spec (mapSet cache h ⟨q, counter + 1⟩) none km om hfind
        have hmem : ∃ e : CacheEntry, (km, e) ∈ mapSet cache h ⟨q, counter + 1⟩ ∧
            e.accessOrder = om := by
          rcases hspec.1 with h' | h'
          · exact h'
          · cases h'
        have hkm : km ≠ h := by
          intro hkmh
          subst hkmh
          rcases hmem with ⟨e, hein, heo⟩
          have he : e = ⟨q, counter + 1⟩ :=
            mem_mapSet_self_eq cache km ⟨q, counter + 1⟩ e hkeys hein
          have hlen2 : 2 ≤ (mapSet cache km ⟨q, counter + 1⟩).length := by omega
          have hnd' : ((mapSet cache km ⟨q, counter + 1⟩).map Prod.fst).Nodup :=
            nodup_keys_mapSet cache km ⟨q, counter + 1⟩ hkeys
          rcases exists_other_key (mapSet cache km ⟨q, counter + 1⟩) km hnd' hlen2 with
            ⟨p, hpin, hpne⟩
          have hpold : p ∈ cache := by
            rcases mem_mapSet cache km ⟨q, counter + 1⟩ p hpin with h' | h'
            · exact absurd (congrArg Prod.fst h') hpne
            · exact h'
          have hple : p.2.accessOrder ≤ counter := hinv p hpold
          have hom : om ≤ p.2.accessOrder := hspec.2.1 p hpin
          rw [he] at heo
          simp only at heo
          omega
        show mapGet (if km = ("") then mapSet cache h ⟨q, counter + 1⟩
            else mapDelete (mapSet cache h ⟨q, counter + 1⟩) km) h = some ⟨q, counter + 1⟩
        by_cases hkme : km = ""
        · rw [if_pos hkme]
          exact hget
        · rw [if_neg hkme]
          rw [mapGet_mapDelete_ne (mapSet cache h ⟨q, counter + 1⟩) km h hkm]
          exact hget

/-- Helper: with distinct keys, a pre-loaded safelist pair is found by
`safelistGet`. -/
theorem safelistGet_of_mem (queries : List (String × String)) (hash t : String)
    (hnd : (queries.map Prod.fst).Nodup) (hmem : (hash, t) ∈ queries) :
    safelistGet queries hash = some t := by
  induction queries with
  | nil => cases hmem
  | cons p rest ih =>
      obtain ⟨k, v⟩ := p
      rw [List.map_cons, List.nodup_cons] at hnd
      rcases List.mem_cons.mp hmem with h | h
      · rw [safelistGet, if_pos (congrArg Prod.fst h).symm]
        exact congrArg some (congrArg Prod.snd h).symm
      · have hk : k ≠ hash := by
          intro hkh
          apply hnd.1
          rw [hkh]
          exact List.mem_map.mpr ⟨(hash, t), h, rfl⟩
        rw [safelistGet, if_neg hk]
        exact ih hnd.2 h

/-- C4: on the automatic (LRU) store with positive capacity, in any
reachable state (distinct keys, all stamps at most the module counter),
`set(hash, text)` immediately followed by `get(hash)` returns exactly
`text`; and on the safelist store, every pre-loaded `(hash, text)` pair
is returned by `get(hash)`. -/
theorem C4_roundtrip (maxSize : Nat) (hmax : 1 ≤ maxSize) (counter : Nat)
    (cache : List (String × CacheEntry))
    (hkeys : (cache.map Prod.fst).Nodup)
    (hinv : ∀ p ∈ cache, p.2.accessOrder ≤ counter)
    (h q : String)
    (queries : List (String × String)) (hq : (queries.map Prod.fst).Nodup)
    (hash t : String) (hmem : (hash, t) ∈ queries) :
    (storeGet h (storeSet maxSize h q counter cache).1 (storeSet maxSize h q counter cache).2).1
        = some q ∧
    safelistGet queries hash = some t := by
  constructor
  · have hget := mapGet_after_storeSet maxSize hmax counter cache hkeys hinv h q
    rw [storeGet, hget]
  · exact safelistGet_of_mem queries hash t hq hmem

/-- C4 witness: the round trip at a concrete store and safelist. -/
theorem C4_roundtrip_witness :
    (storeGet ("h1") (storeSet 1 ("h1") ("query A") 7 [(("h0"), ⟨("old"), 3⟩)]).1
        (storeSet 1 ("h1") ("query A") 7 [(("h0"), ⟨("old"), 3⟩)]).2).1 = some ("query A") ∧
    safelistGet [(("k1"), ("query B"))] ("k1") = some ("query B") := by
  have h := C4_roundtrip 1 (by decide) 7 [(("h0"), ⟨("old"), 3⟩)]
    (by decide) (by decide) ("h1") ("query A")
    [(("k1"), ("query B"))] (by decide) ("k1") ("query B") (by decide)
  exact h

/-- C2: the persisted-query protocol handler's complete case analysis —
no extension: pass through unchanged; version ≠ 1: version error
carrying the version; hash in store: stored text substituted as the
query; hash absent without query text: not-found; hash absent with
query text under the safelist policy: not-allowed; under the automatic
policy with hash validation on and a differing recomputed hash:
hash-mismatch carrying both hashes; otherwise the pair is stored and
the request proceeds.  The final conjunct: the handler fails if and
only if one of the four error conditions holds. -/
theorem C2_persisted_query_protocol (mode : PQMode) (validateHashOption : Bool)
    (computeHash : String → String) (storeLookup : String → Option String)
    (body : GraphQLRequestBody) :
    (parsePersistedQueryExtension body.extensions = none →
      resolvePersistedQuery mode validateHashOption computeHash storeLookup body
        = .ok (body, none)) ∧
    (∀ pq, parsePersistedQueryExtension body.extensions = some pq →
      (pq.version ≠ 1 →
        resolvePersistedQuery mode validateHashOption computeHash storeLookup body
          = .error (.versionNotSupported pq.version)) ∧
      (pq.version = 1 →
        (∀ t, storeLookup pq.sha256Hash = some t →
          resolvePersistedQuery mode validateHashOption computeHash storeLookup body
            = .ok ({ body with query := some t }, none)) ∧
        (storeLookup pq.sha256Hash = none →
          (queryProvided body = false →
            resolvePersistedQuery mode validateHashOption computeHash storeLookup body
              = .error (.notFound pq.sha256Hash)) ∧
          (∀ q, body.query = some q → q ≠ ("") →
            (mode = .safelist →
              resolvePersistedQuery mode validateHashOption computeHash storeLookup body
                = .error (.notAllowed pq.sha256Hash)) ∧
            (mode = .apq → validateHashOption = true → computeHash q ≠ pq.sha256Hash →
              resolvePersistedQuery mode validateHashOption computeHash storeLookup body
                = .error (.hashMismatch pq.sha256Hash (computeHash q))) ∧
            (mode = .apq → (validateHashOption = true → computeHash q = pq.sha256Hash) →
              resolvePersistedQuery mode validateHashOption computeHash storeLookup body
                = .ok (body, some (pq.sha256Hash, q))))))) ∧
    ((∃ e, resolvePersistedQuery mode validateHashOption computeHash storeLookup body
        = .error e) ↔
      (∃ pq, parsePersistedQueryExtension body.extensions = some pq ∧
        (pq.version ≠ 1 ∨
         (pq.version = 1 ∧ storeLookup pq.sha256Hash = none ∧
          (queryProvided body = false ∨
           (queryProvided body = true ∧
            (mode = .safelist ∨
             (mode = .apq ∧ validateHashOption = true ∧
              ∃ q, body.query = some q ∧ computeHash q ≠ pq.sha256Hash)))))))) := by
  refine ⟨?_, ?_, ?_⟩
  · intro hext
    simp [resolvePersistedQuery, hext]
  · intro pq hext
    refine ⟨?_, ?_⟩
    · intro hv
      simp [resolvePersistedQuery, hext, hv]
    · intro hv1
      refine ⟨?_, ?_⟩
      · intro t hsl
        simp [resolvePersistedQuery, hext, hv1, hsl]
      · intro hsl
        refine ⟨?_, ?_⟩
        · intro hqp
          cases hbq : body.query with
          | none => simp [resolvePersistedQuery, hext, hv1, hsl, hbq]
          | some q =>
              have hqe : q = ("") := by
                rw [queryProvided, hbq] at hqp
                simpa using hqp
              simp [resolvePersistedQuery, hext, hv1, hsl, hbq, hqe]
        · intro q hbq hqe
          refine ⟨?_, ?_, ?_⟩
          · intro hm
            simp [resolvePersistedQuery, hext, hv1, hsl, hbq, hqe, hm]
          · intro hm hvh hch
            simp [resolvePersistedQuery, hext, hv1, hsl, hbq, hqe, hm, hvh, hch]
          · intro hm hok
            cases hvh : validateHashOption with
            | false =>
                simp [resolvePersistedQuery, hext, hv1, hsl, hbq, hqe, hm, hvh]
            | true =>
                simp [resolvePersistedQuery, hext, hv1, hsl, hbq, hqe, hm, hvh, hok hvh]
  · cases hext : parsePersistedQueryExtension body.extensions with
    | none => simp [resolvePersistedQuery, hext]
    | some pq =>
        by_cases hv : pq.version = 1
        · cases hsl : storeLookup pq.sha256Hash with
          | some t => simp [resolvePersistedQuery, hext, hv, hsl]
          | none =>
              cases hbq : body.query with
              | none =>
                  simp [resolvePersistedQuery, hext, hv, hsl, hbq, queryProvided]
              | some q =>
                  by_cases hqe : q = ("")
                  · simp [resolvePersistedQuery, hext, hv, hsl, hbq, hqe, queryProvided]
                  · cases mode with
                    | safelist =>
                        simp [resolvePersistedQuery, hext, hv, hsl, hbq, hqe, queryProvided]
                    | apq =>
                        cases hvh : validateHashOption with
                        | false =>
                            simp [resolvePersistedQuery, hext, hv, hsl, hbq, hqe,
                              queryProvided, hvh]
                        | true =>
                            by_cases hch : computeHash q = pq.sha256Hash
                            · simp [resolvePersistedQuery, hext, hv, hsl, hbq, hqe,
                                queryProvided, hvh, hch]
                            · simp [resolvePersistedQuery, hext, hv, hsl, hbq, hqe,
                                queryProvided, hvh, hch]
        · simp [resolvePersistedQuery, hext, hv]

/-- C2 witness: the protocol cases applied at a concrete request — a
hash-validating automatic store rejects a registration whose recomputed
hash differs from the claimed one, with both hashes in the error. -/
theorem C2_persisted_query_protocol_witness :
    resolvePersistedQuery .apq true (fun _ => ("H2")) (fun _ => none)
        { query := some ("query A"),
          extensions := some (Json.obj
            [(("persistedQuery"), Json.obj
              [(("version"), Json.num 1), (("sha256Hash"), Json.str ("H1"))])]) }
      = .error (.hashMismatch ("H1") ("H2")) := by
  have h := C2_persisted_query_protocol .apq true (fun _ => ("H2")) (fun _ => none)
    { query := some ("query A"),
      extensions := some (Json.obj
        [(("persistedQuery"), Json.obj
          [(("version"), Json.num 1), (("sha256Hash"), Json.str ("H1"))])]) }
  exact ((((h.2.1 ⟨1, ("H1")⟩ rfl).2 rfl).2 rfl).2 ("query A") rfl (by decide)).2.1
    rfl rfl (by decide)

/-- C9: a request whose extensions carry a malformed `persistedQuery`
entry (not an object, `version` or `sha256Hash` missing, `version` not
a number, or `sha256Hash` not a string) is treated as having no
persisted-query extension: `parsePersistedQueryExtension` returns
`null` and the handler passes the request through unchanged instead of
failing. -/
theorem C9_malformed_extension_passthrough (mode : PQMode) (validateHashOption : Bool)
    (computeHash : String → String) (storeLookup : String → Option String)
    (body : GraphQLRequestBody) (fields : List (String × Json)) (pq : Json)
    (hext : body.extensions = some (Json.obj fields))
    (hpq : jsGetField fields ("persistedQuery") = some pq)
    (hmal : malformedPersistedQuery pq = true) :
    parsePersistedQueryExtension body.extensions = none ∧
    resolvePersistedQuery mode validateHashOption computeHash storeLookup body
      = .ok (body, none) := by
  have hparse : parsePersistedQueryExtension body.extensions = none := by
    rw [hext]
    cases pq with
    | null => simp [parsePersistedQueryExtension, hpq]
    | bool b => simp [parsePersistedQueryExtension, hpq]
    | num n => simp [parsePersistedQueryExtension, hpq]
    | str s => simp [parsePersistedQueryExtension, hpq]
    | arr items => simp [parsePersistedQueryExtension, hpq]
    | obj pqFields =>
        rw [malformedPersistedQuery] at hmal
        cases hv : jsGetField pqFields ("version") with
        | none => simp [parsePersistedQueryExtension, hpq, hv]
        | some v =>
            cases hs : jsGetField pqFields ("sha256Hash") with
            | none => simp [parsePersistedQueryExtension, hpq, hv, hs]
            | some s =>
                rw [hv, hs] at hmal
                cases v <;> cases s <;>
                  simp_all [parsePersistedQueryExtension, hpq]
  exact ⟨hparse, by simp [resolvePersistedQuery, hparse]⟩

/-- C9 witness: a `persistedQuery` entry that is a plain string passes
the request through unchanged. -/
theorem C9_malformed_extension_passthrough_witness :
    resolvePersistedQuery .apq true (fun _ => ("")) (fun _ => none)
        { query := some ("query A"),
          extensions := some (Json.obj [(("persistedQuery"), Json.str ("bad"))]) }
      = .ok ({ query := some ("query A"),
               extensions := some (Json.obj [(("persistedQuery"), Json.str ("bad"))]) },
             none) := by
  have h := C9_malformed_extension_passthrough .apq true (fun _ => ("")) (fun _ => none)
    { query := some ("query A"),
      extensions := some (Json.obj [(("persistedQuery"), Json.str ("bad"))]) }
    [(("persistedQuery"), Json.str ("bad"))] (Json.str ("bad")) rfl rfl rfl
  exact h.2

/-- Helper: erasing hook failures does not change the bag a phase
produces. -/
theorem runHooksPhase_erase (hooks : List HookFn) (bag : ExtensionBag) :
    (runHooksPhase (hooks.map eraseHookFailure) bag).1 = (runHooksPhase hooks bag).1 := by
  induction hooks generalizing bag with
  | nil => rfl
  | cons h rest ih => simp [runHooksPhase, eraseHookFailure, ih]

/-- Helper: collecting `onParse` hooks commutes with failure erasure. -/
theorem filterMap_onParse_erase (exts : List GraphQLExtensionM) :
    (exts.map eraseExtensionFailures).filterMap (·.onParse)
      = (exts.filterMap (·.onParse)).map eraseHookFailure := by
  induction exts with
  | nil => rfl
  | cons e rest ih =>
      cases he : e.onParse <;>
        simp [List.filterMap_cons, eraseExtensionFailures, he, ih]

/-- Helper: collecting `onValidate` hooks commutes with failure
erasure. -/
theorem filterMap_onValidate_erase (exts : List GraphQLExtensionM) :
    (exts.map eraseExtensionFailures).filterMap (·.onValidate)
      = (exts.filterMap (·.onValidate)).map eraseHookFailure := by
  induction exts with
  | nil => rfl
  | cons e rest ih =>
      cases he : e.onValidate <;>
        simp [List.filterMap_cons, eraseExtensionFailures, he, ih]

/-- Helper: collecting `onExecuteStart` hooks commutes with failure
erasure. -/
theorem filterMap_onExecuteStart_erase (exts : List GraphQLExtensionM) :
    (exts.map eraseExtensionFailures).filterMap (·.onExecuteStart)
      = (exts.filterMap (·.onExecuteStart)).map eraseHookFailure := by
  induction exts with
  | nil => rfl
  | cons e rest ih =>
      cases he : e.onExecuteStart <;>
        simp [List.filterMap_cons, eraseExtensionFailures, he, ih]

/-- Helper: collecting `onExecuteEnd` hooks commutes with failure
erasure. -/
theorem filterMap_onExecuteEnd_erase (exts : List GraphQLExtensionM) :
    (exts.map eraseExtensionFailures).filterMap (·.onExecuteEnd)
      = (exts.filterMap (·.onExecuteEnd)).map eraseHookFailure := by
  induction exts with
  | nil => rfl
  | cons e rest ih =>
      cases he : e.onExecuteEnd <;>
        simp [List.filterMap_cons, eraseExtensionFailures, he, ih]

/-- Helper: the `onParse` phase produces the same bag with failures
erased. -/
theorem runParseHooksM_erase (exts : List GraphQLExtensionM) (bag : ExtensionBag) :
    (runParseHooksM (exts.map eraseExtensionFailures) bag).1 = (runParseHooksM exts bag).1 := by
  rw [runParseHooksM, runParseHooksM, filterMap_onParse_erase, runHooksPhase_erase]

/-- Helper: the `onValidate` phase produces the same bag with failures
erased. -/
theorem runValidateHooksM_erase (exts : List GraphQLExtensionM) (bag : ExtensionBag) :
    (runValidateHooksM (exts.map eraseExtensionFailures) bag).1
      = (runValidateHooksM exts bag).1 := by
  rw [runValidateHooksM, runValidateHooksM, filterMap_onValidate_erase, runHooksPhase_erase]

/-- Helper: the `onExecuteStart` phase produces the same bag with
failures erased. -/
theorem runExecuteStartHooksM_erase (exts : List GraphQLExtensionM) (bag : ExtensionBag) :
    (runExecuteStartHooksM (exts.map eraseExtensionFailures) bag).1
      = (runExecuteStartHooksM exts bag).1 := by
  rw [runExecuteStartHooksM, runExecuteStartHooksM, filterMap_onExecuteStart_erase,
    runHooksPhase_erase]

/-- Helper: the `onExecuteEnd` phase produces the same bag with
failures erased. -/
theorem runExecuteEndHooksM_erase (exts : List GraphQLExtensionM) (bag : ExtensionBag) :
    (runExecuteEndHooksM (exts.map eraseExtensionFailures) bag).1
      = (runExecuteEndHooksM exts bag).1 := by
  rw [runExecuteEndHooksM, runExecuteEndHooksM, filterMap_onExecuteEnd_erase,
    runHooksPhase_erase]

/-- Helper: the full four-phase bag chain is unchanged by failure
erasure. -/
theorem hookBagChain_erase (exts : List GraphQLExtensionM) :
    (runExecuteEndHooksM (exts.map eraseExtensionFailures)
      (runExecuteStartHooksM (exts.map eraseExtensionFailures)
        (runValidateHooksM (exts.map eraseExtensionFailures)
          (runParseHooksM (exts.map eraseExtensionFailures) []).1).1).1).1
    = (runExecuteEndHooksM exts (runExecuteStartHooksM exts
        (runValidateHooksM exts (runParseHooksM exts []).1).1).1).1 := by
  rw [runParseHooksM_erase, runValidateHooksM_erase, runExecuteStartHooksM_erase,
    runExecuteEndHooksM_erase]

/-- C5: for every request, erasing the failures of every registered
lifecycle hook (so that each hook "succeeds" with the same extension
writes) yields the same HTTP status, error list, data, extensions and
execution behaviour — a hook failure never fails the request or changes
its response.  The second conjunct shows the isolating wrapper itself:
a single hook's run continues with the bag the hook produced, adding
one warning exactly when the hook failed. -/
theorem C5_hook_failure_isolation :
    (∀ env : HandlerEnv,
      (createHandlerM { env with extensions := env.extensions.map eraseExtensionFailures }).status
          = (createHandlerM env).status ∧
      (createHandlerM { env with extensions := env.extensions.map eraseExtensionFailures }).errors
          = (createHandlerM env).errors ∧
      (createHandlerM { env with extensions := env.extensions.map eraseExtensionFailures }).data
          = (createHandlerM env).data ∧
      (createHandlerM { env with
          extensions := env.extensions.map eraseExtensionFailures }).extensions
          = (createHandlerM env).extensions ∧
      (createHandlerM { env with extensions := env.extensions.map eraseExtensionFailures }).executed
          = (createHandlerM env).executed) ∧
    (∀ (hk : HookFn) (bag : ExtensionBag),
        runHooksPhase [hk] bag = ((hk bag).1, if (hk bag).2.isSome then 1 else 0)) := by
  constructor
  · intro env
    cases hpb : env.parseBody with
    | error msg => simp [createHandlerM, hpb]
    | ok rawBody =>
        cases hres : resolvePersistedQuery env.mode env.validateHashOption env.computeHash
            env.storeLookup rawBody with
        | error e => simp [createHandlerM, hpb, hres]
        | ok bw =>
            obtain ⟨body, wr⟩ := bw
            cases hbq : body.query with
            | none => simp [createHandlerM, hpb, hres, hbq]
            | some q =>
                by_cases hqe : q = ("")
                · simp [createHandlerM, hpb, hres, hbq, hqe]
                · cases hdoc : env.docParse q with
                  | error pe => simp [createHandlerM, hpb, hres, hbq, hqe, hdoc]
                  | ok doc =>
                      by_cases hverr : env.validateDoc doc = []
                      · cases hcx : env.complexity with
                        | none =>
                            simp [createHandlerM, executePhase, hpb, hres, hbq, hqe, hdoc,
                              hverr, hcx, runParseHooksM_erase, runValidateHooksM_erase,
                              runExecuteStartHooksM_erase, runExecuteEndHooksM_erase]
                            rw [hookBagChain_erase env.extensions]
                        | some cfg =>
                            cases hvc : validateComplexityM (env.analyze q) cfg with
                            | error ce =>
                                cases ce with
                                | limitExceeded lt l a =>
                                    simp [createHandlerM, hpb, hres, hbq, hqe, hdoc, hverr,
                                      hcx, hvc]
                                | analysisError m =>
                                    simp [createHandlerM, executePhase, hpb, hres, hbq, hqe,
                                      hdoc, hverr, hcx, hvc, runParseHooksM_erase,
                                      runValidateHooksM_erase, runExecuteStartHooksM_erase,
                                      runExecuteEndHooksM_erase]
                                    rw [hookBagChain_erase env.extensions]
                            | ok r =>
                                simp [createHandlerM, executePhase, hpb, hres, hbq, hqe,
                                  hdoc, hverr, hcx, hvc, runParseHooksM_erase,
                                  runValidateHooksM_erase, runExecuteStartHooksM_erase,
                                  runExecuteEndHooksM_erase]
                                rw [hookBagChain_erase env.extensions]
                      · simp [createHandlerM, hpb, hres, hbq, hqe, hdoc, hverr,
                          runParseHooksM_erase, runValidateHooksM_erase]
  · intro hk bag
    simp [runHooksPhase]

/-- C6: with a complexity governor configured, a request whose metrics
violate a configured limit is answered with HTTP 400 and a structured
error carrying `COMPLEXITY_LIMIT_EXCEEDED` with `limitType`, `limit`
and `actual`, and `graphqlExecute` is never invoked; whereas a
complexity analysis failure only logs one extra warning and the request
proceeds to execution with the same response as if no governor were
configured (fail open). -/
theorem C6_complexity_gate (env : HandlerEnv) (cfg : ComplexityConfig)
    (rawBody body : GraphQLRequestBody) (wr : Option (String × String)) (q : String)
    (doc : DocumentNode)
    (hcfg : env.complexity = some cfg)
    (hpb : env.parseBody = .ok rawBody)
    (hres : resolvePersistedQuery env.mode env.validateHashOption env.computeHash
        env.storeLookup rawBody = .ok (body, wr))
    (hbq : body.query = some q) (hqe : q ≠ (""))
    (hdoc : env.docParse q = .ok doc)
    (hval : env.validateDoc doc = []) :
    (∀ (r : ComplexityResult) (lt : String) (l a : Nat),
        env.analyze q = .ok r → checkComplexityLimits r cfg = some (lt, l, a) →
        (createHandlerM env).status = 400 ∧
        (createHandlerM env).errors = [complexityLimitError lt l a] ∧
        (createHandlerM env).executed = false) ∧
    (∀ m, env.analyze q = .error m →
        (createHandlerM env).status = (createHandlerM { env with complexity := none }).status ∧
        (createHandlerM env).errors = (createHandlerM { env with complexity := none }).errors ∧
        (createHandlerM env).data = (createHandlerM { env with complexity := none }).data ∧
        (createHandlerM env).extensions
            = (createHandlerM { env with complexity := none }).extensions ∧
        (createHandlerM env).executed = true ∧
        (createHandlerM env).warnings
            = (createHandlerM { env with complexity := none }).warnings + 1) := by
  constructor
  · intro r lt l a han hchk
    refine ⟨?_, ?_, ?_⟩ <;>
      simp [createHandlerM, hpb, hres, hbq, hqe, hdoc, hval, hcfg,
        validateComplexityM, han, hchk]
  · intro m ham
    refine ⟨?_, ?_, ?_, ?_, ?_, ?_⟩
    all_goals
      simp [createHandlerM, executePhase, hpb, hres, hbq, hqe, hdoc, hval, hcfg,
        validateComplexityM, ham]
    all_goals omega

/-- C6 witness: the governor theorem applied at a concrete request with
`maxComplexity: 1` and computed complexity 2. -/
theorem C6_complexity_gate_witness :
    (createHandlerM
        { parseBody := .ok { query := some ("query Q on X") },
          complexity := some { maxComplexity := some 1 },
          analyze := fun _ => .ok ⟨2, 1, 2, 0⟩ }).status = 400 ∧
    (createHandlerM
        { parseBody := .ok { query := some ("query Q on X") },
          complexity := some { maxComplexity := some 1 },
          analyze := fun _ => .ok ⟨2, 1, 2, 0⟩ }).errors
      = [complexityLimitError ("maxComplexity") 1 2] ∧
    (createHandlerM
        { parseBody := .ok { query := some ("query Q on X") },
          complexity := some { maxComplexity := some 1 },
          analyze := fun _ => .ok ⟨2, 1, 2, 0⟩ }).executed = false := by
  have h := C6_complexity_gate
    { parseBody := .ok { query := some ("query Q on X") },
      complexity := some { maxComplexity := some 1 },
      analyze := fun _ => .ok ⟨2, 1, 2, 0⟩ }
    { maxComplexity := some 1 }
    { query := some ("query Q on X") } { query := some ("query Q on X") } none
    ("query Q on X") ⟨0⟩ rfl rfl rfl rfl (by decide) rfl rfl
  exact h.1 ⟨2, 1, 2, 0⟩ ("maxComplexity") 1 2 rfl rfl

/-- Helper: a limit-exceeded outcome of `validateComplexityM` comes
from a successful analysis whose metrics violate a configured limit. -/
theorem validateComplexityM_limit_inv (analysis : Except String ComplexityResult)
    (cfg : ComplexityConfig) (lt : String) (l a : Nat)
    (h : validateComplexityM analysis cfg = .error (.limitExceeded lt l a)) :
    ∃ r, analysis = .ok r ∧ checkComplexityLimits r cfg = some (lt, l, a) := by
  cases analysis with
  | error m => simp [validateComplexityM] at h
  | ok r =>
      refine ⟨r, rfl, ?_⟩
      cases hchk : checkComplexityLimits r cfg with
      | none => simp [validateComplexityM, hchk] at h
      | some v =>
          obtain ⟨lt', l', a'⟩ := v
          simp [validateComplexityM, hchk] at h
          rw [h.1, h.2.1, h.2.2]

/-- C3 (counterexample): the claim says HTTP status is 400 when GraphQL
document parsing fails; in the code the parse-failure branch returns
the error response without a status override, so it is served with the
default status 200. -/
theorem C3_counterexample :
    (createHandlerM
        { parseBody := .ok { query := some ("query Q on") },
          docParse := fun _ => .error ("Syntax Error: Expected Name") }).status = 200 := rfl

/-- C3 (amended): the one-shot handler answers with HTTP 400 exactly
when the request body fails to parse as JSON, when after persisted-query
resolution no non-empty query text is available, when validation
produces a non-empty error list, or when a configured complexity limit
is exceeded; a GraphQL document parse failure — like a persisted-query
protocol error — is reported with status 200, and every other outcome,
including resolver-level errors inside the errors array, is status
200. -/
theorem C3_http_status (env : HandlerEnv) :
    (createHandlerM env).status = 400 ↔
      ((∃ m, env.parseBody = .error m) ∨
       (∃ rawBody body wr, env.parseBody = .ok rawBody ∧
          resolvePersistedQuery env.mode env.validateHashOption env.computeHash
            env.storeLookup rawBody = .ok (body, wr) ∧
          queryProvided body = false) ∨
       (∃ rawBody body wr q doc, env.parseBody = .ok rawBody ∧
          resolvePersistedQuery env.mode env.validateHashOption env.computeHash
            env.storeLookup rawBody = .ok (body, wr) ∧
          body.query = some q ∧ q ≠ ("") ∧
          env.docParse q = .ok doc ∧ env.validateDoc doc ≠ []) ∨
       (∃ rawBody body wr q doc cfg r v, env.parseBody = .ok rawBody ∧
          resolvePersistedQuery env.mode env.validateHashOption env.computeHash
            env.storeLookup rawBody = .ok (body, wr) ∧
          body.query = some q ∧ q ≠ ("") ∧
          env.docParse q = .ok doc ∧ env.validateDoc doc = [] ∧
          env.complexity = some cfg ∧ env.analyze q = .ok r ∧
          checkComplexityLimits r cfg = some v)) := by
  cases hpb : env.parseBody with
  | error msg =>
      refine iff_of_true (by simp [createHandlerM, hpb]) ?_
      exact Or.inl ⟨msg, rfl⟩
  | ok rawBody =>
      cases hres : resolvePersistedQuery env.mode env.validateHashOption env.computeHash
          env.storeLookup rawBody with
      | error e =>
          refine iff_of_false (by simp [createHandlerM, hpb, hres]) ?_
          rintro (⟨m, hm⟩ | ⟨rb, b, w, h1, h2, h3⟩ | ⟨rb, b, w, q', d, h1, h2, h3, h4, h5, h6⟩ |
            ⟨rb, b, w, q', d, cfg, r, v, h1, h2, h3, h4, h5, h6, h7, h8, h9⟩) <;> simp_all
      | ok bw =>
          obtain ⟨body, wr⟩ := bw
          cases hbq : body.query with
          | none =>
              refine iff_of_true (by simp [createHandlerM, hpb, hres, hbq, noQueryResponse]) ?_
              exact Or.inr (Or.inl ⟨rawBody, body, wr, rfl, hres, by simp [queryProvided, hbq]⟩)
          | some q =>
              by_cases hqe : q = ("")
              · refine iff_of_true
                  (by simp [createHandlerM, hpb, hres, hbq, hqe, noQueryResponse]) ?_
                exact Or.inr (Or.inl ⟨rawBody, body, wr, rfl, hres,
                  by simp [queryProvided, hbq, hqe]⟩)
              · cases hdoc : env.docParse q with
                | error pe =>
                    refine iff_of_false
                      (by simp [createHandlerM, hpb, hres, hbq, hqe, hdoc]) ?_
                    rintro (⟨m, hm⟩ | ⟨rb, b, w, h1, h2, h3⟩ |
                      ⟨rb, b, w, q', d, h1, h2, h3, h4, h5, h6⟩ |
                      ⟨rb, b, w, q', d, cfg, r, v, h1, h2, h3, h4, h5, h6, h7, h8, h9⟩) <;>
                      simp_all [queryProvided]
                | ok doc =>
                    by_cases hverr : env.validateDoc doc = []
                    · cases hcx : env.complexity with
                      | none =>
                          refine iff_of_false
                            (by simp [createHandlerM, executePhase, hpb, hres, hbq, hqe,
                              hdoc, hverr, hcx]) ?_
                          rintro (⟨m, hm⟩ | ⟨rb, b, w, h1, h2, h3⟩ |
                            ⟨rb, b, w, q', d, h1, h2, h3, h4, h5, h6⟩ |
                            ⟨rb, b, w, q', d, cfg, r, v, h1, h2, h3, h4, h5, h6, h7, h8, h9⟩) <;>
                            simp_all [queryProvided]
                      | some cfg =>
                          cases hvc : validateComplexityM (env.analyze q) cfg with
                          | error ce =>
                              cases ce with
                              | limitExceeded lt l a =>
                                  refine iff_of_true
                                    (by simp [createHandlerM, hpb, hres, hbq, hqe, hdoc,
                                      hverr, hcx, hvc]) ?_
                                  refine Or.inr (Or.inr (Or.inr ?_))
                                  obtain ⟨r, han, hchk⟩ :=
                                    validateComplexityM_limit_inv (env.analyze q) cfg lt l a hvc
                                  exact ⟨rawBody, body, wr, q, doc, cfg, r, (lt, l, a),
                                    rfl, hres, hbq, hqe, hdoc, hverr, rfl, han, hchk⟩
                              | analysisError m =>
                                  refine iff_of_false
                                    (by simp [createHandlerM, executePhase, hpb, hres, hbq,
                                      hqe, hdoc, hverr, hcx, hvc]) ?_
                                  rintro (⟨m', hm⟩ | ⟨rb, b, w, h1, h2, h3⟩ |
                                    ⟨rb, b, w, q', d, h1, h2, h3, h4, h5, h6⟩ |
                                    ⟨rb, b, w, q', d, cfg', r, v, h1, h2, h3, h4, h5, h6,
                                      h7, h8, h9⟩) <;>
                                    simp_all [queryProvided, validateComplexityM]
                          | ok r0 =>
                              refine iff_of_false
                                (by simp [createHandlerM, executePhase, hpb, hres, hbq,
                                  hqe, hdoc, hverr, hcx, hvc]) ?_
                              rintro (⟨m', hm⟩ | ⟨rb, b, w, h1, h2, h3⟩ |
                                ⟨rb, b, w, q', d, h1, h2, h3, h4, h5, h6⟩ |
                                ⟨rb, b, w, q', d, cfg', r, v, h1, h2, h3, h4, h5, h6,
                                  h7, h8, h9⟩) <;>
                                simp_all [queryProvided, validateComplexityM]
                    · refine iff_of_true
                        (by simp [createHandlerM, hpb, hres, hbq, hqe, hdoc, hverr]) ?_
                      exact Or.inr (Or.inr (Or.inl
                        ⟨rawBody, body, wr, q, doc, rfl, hres, hbq, hqe, hdoc, hverr⟩))

end EffectGql
